import Mathlib

/-!
Verification of the SecureConnect encrypted messenger.

Shallow embedding of the client (`Client/encryption.py`, `Client/data_manager.py`,
`Client/main_messenger.py`) and the relay (`ServerSide/database.py`,
`ServerSide/server.py`).  External library primitives (the `cryptography`
package's Fernet authenticated encryption and RSA-OAEP, Python's `json` and
`base64` codecs) are modelled symbolically by their documented contracts:
ciphertexts are constructor applications remembering key and plaintext,
decryption inverts them exactly when the key matches, serialization is an
injective codec.  Base64 transport encoding (applied by the code and undone
immediately on the other side) is modelled as the identity.
-/

namespace SecureConnect

/-- A Python runtime value, restricted to the shapes that flow through the
storage-encryption and backup paths: text strings, byte strings obtained by
UTF-8-encoding a text string, byte strings obtained by UTF-8-encoding the
JSON serialization of a value, lists, and string-keyed dicts.  A byte string
is a distinct constructor from a text string, mirroring Python 3 where
`b"a" != "a"`. -/
inductive PyVal where
  | str (s : String)
  | bytesUtf8 (s : String)
  | bytesJson (v : PyVal)
  | list (xs : List PyVal)
  | dict (kvs : List (String × PyVal))

/-- Symbolic Fernet token: a valid token remembers the symmetric key (a key
identifier) and the plaintext bytes; `tampered` stands for any byte string
that is not a token produced by `Fernet.encrypt`, in particular any
modification of a valid token (Fernet is authenticated encryption, so every
modification invalidates the HMAC). -/
inductive FernetTok where
  | valid (key : Nat) (plain : PyVal)
  | tampered

/-- Model of `Fernet(key).encrypt(plain)`. -/
def fernetEncrypt (key : Nat) (plain : PyVal) : FernetTok :=
  FernetTok.valid key plain

/-- Model of `Fernet(key).decrypt(tok)`: returns the plaintext exactly when `tok` is a
valid token under `key`; raises (here: `none`) on a wrong key or a tampered
token. -/
def fernetDecrypt (key : Nat) : FernetTok → Option PyVal
  | FernetTok.valid k p => if k = key then some p else none
  | FernetTok.tampered => none

/-- Symbolic RSA-OAEP(SHA-256) wrap of a one-time symmetric key under a public
key.  A keypair is identified by a single `Nat`: the public and the private
half of the same keypair carry the same identifier. -/
inductive RsaCipher where
  | wrap (pubKey : Nat) (payload : Nat)

/-- Model of `private_key.decrypt(c, OAEP(MGF1(SHA256), SHA256))`: unwraps exactly when
the ciphertext was produced under the matching public key. -/
def rsaDecrypt (privKey : Nat) : RsaCipher → Option Nat
  | RsaCipher.wrap pk payload => if pk = privKey then some payload else none

/-- Model of `bytes.decode('utf-8')` on a byte string known to be the UTF-8 encoding of
a text string.  Only raw UTF-8 byte strings are decoded here; no code path in
the embedding decodes other byte shapes. -/
def utf8Decode : PyVal → Option String
  | PyVal.bytesUtf8 s => some s
  | _ => none

/-- Python truthiness of a byte string (`if decrypted_messages:`): empty bytes
are falsy.  The JSON serialization of a value is never the empty string, so
`bytesJson` is always truthy. -/
def pyBytesTruthy : PyVal → Bool
  | PyVal.bytesUtf8 s => !s.isEmpty
  | _ => true

/-- Model of `json.loads` applied to the UTF-8 decoding of a byte string.  Inverts the
symbolic serialization `bytesJson`; a raw text byte string is not (modelled
as) valid JSON, so loading it raises (here: `none`). -/
def jsonLoadsBytes : PyVal → Option PyVal
  | PyVal.bytesJson v => some v
  | _ => none

/-! ## `Client/encryption.py` — `EncryptionManager` -/

/-- One message envelope as built by `encrypt_message`: the dict
`{'key': b64(rsa-wrapped one-time key), 'message': b64(fernet ciphertext)}`.
Base64 is modelled as the identity codec. -/
structure Envelope where
  key : RsaCipher
  message : FernetTok

/-- Model of `EncryptionManager.encrypt_message(message, recipient_username)`.
`friendKeys` is the manager's map of cached friend public keys (the in-memory
dict united with the key files that `load_friend_public_key` would load);
`otk` is the fresh one-time key produced by `Fernet.generate_key()`.
Returns `None` when the recipient's public key is unavailable. -/
def encrypt_message (friendKeys : String → Option Nat) (otk : Nat)
    (message : String) (recipient_username : String) : Option Envelope :=
  match friendKeys recipient_username with
  | none => none
  | some pk =>
      some { key := RsaCipher.wrap pk otk
             message := fernetEncrypt otk (PyVal.bytesUtf8 message) }

/-- Model of `EncryptionManager.decrypt_message(encrypted_data)`: unwrap the one-time
key with the private key, then Fernet-decrypt the content and UTF-8-decode
it.  Any failure is caught and surfaced as `None`. -/
def decrypt_message (privKey : Nat) (encrypted_data : Envelope) : Option String :=
  match rsaDecrypt privKey encrypted_data.key with
  | none => none
  | some messageKey =>
      match fernetDecrypt messageKey encrypted_data.message with
      | none => none
      | some plain => utf8Decode plain

/-- The byte form `encrypt_data_for_storage` feeds to Fernet: a `str` is
UTF-8-encoded, a `dict` or `list` is JSON-serialized then encoded, and byte
strings pass through unchanged. -/
def storageSerialize : PyVal → PyVal
  | PyVal.str s => PyVal.bytesUtf8 s
  | PyVal.dict kvs => PyVal.bytesJson (PyVal.dict kvs)
  | PyVal.list xs => PyVal.bytesJson (PyVal.list xs)
  | v => v

/-- Model of `EncryptionManager.encrypt_data_for_storage(data)`: serialize, encrypt
under the local symmetric key, base64-encode (identity here).  The
`except` branch returning `None` is unreachable for the value shapes of
`PyVal`, but the `Option` result mirrors the source signature. -/
def encrypt_data_for_storage (symKey : Nat) (data : PyVal) : Option FernetTok :=
  some (fernetEncrypt symKey (storageSerialize data))

/-- Model of `EncryptionManager.decrypt_data_from_storage(encrypted_data)`: base64-
decode (identity here) and Fernet-decrypt.  Note that the result is the raw
decrypted *bytes*: the source performs no deserialization. -/
def decrypt_data_from_storage (symKey : Nat) (encrypted_data : FernetTok) : Option PyVal :=
  fernetDecrypt symKey encrypted_data

/-- Python dict assignment `d[k] = v` on a dict kept as an insertion-ordered
association list: replaces in place when the key is present, appends
otherwise. -/
def dictInsert {α : Type} : List (String × α) → String → α → List (String × α)
  | [], k, v => [(k, v)]
  | (k', v') :: rest, k, v =>
      if k' = k then (k, v) :: rest else (k', v') :: dictInsert rest k v

/-- Python dict lookup `d.get(k)`. -/
def dictFind {α : Type} (d : List (String × α)) (k : String) : Option α :=
  (d.find? (fun kv => kv.1 = k)).map (fun kv => kv.2)

/-- Loop body of `encrypt_group_message`: encrypt for each remaining member in
order, accumulating the dict of envelopes; abort with `None` on the first
member whose encryption fails. -/
def encrypt_group_message_go (friendKeys : String → Option Nat) (otks : String → Nat)
    (message : String) : List String → List (String × Envelope) →
    Option (List (String × Envelope))
  | [], acc => some acc
  | member :: rest, acc =>
      match encrypt_message friendKeys (otks member) message member with
      | some e => encrypt_group_message_go friendKeys otks message rest (dictInsert acc member e)
      | none => none

/-- Model of `EncryptionManager.encrypt_group_message(message, group_members)`:
one independent envelope per member (`otks` supplies the fresh one-time key
generated for each member); returns `None` — no partial dict — as soon as any
member's encryption fails. -/
def encrypt_group_message (friendKeys : String → Option Nat) (otks : String → Nat)
    (message : String) (group_members : List String) : Option (List (String × Envelope)) :=
  encrypt_group_message_go friendKeys otks message group_members []

/-! ## `Client/data_manager.py` — `DataManager` and its local files

Local state of the client: the `DataManager` in-memory fields together with
the files it writes (`UserData/relations.json`, `MessageHistory/<key>.json`,
`UserData/last_sync.txt`).  Each call to `int(time.time())` in the source is
modelled by an explicit `Nat` argument, one per call site in call order. -/

structure ClientState where
  friends : List String
  groups : List String
  /-- Model of `self.message_history`: conversation key → JSON value (a list of
  display strings in every state the program builds). -/
  messageHistory : List (String × PyVal)
  /-- Model of `self.last_sync_time` (in memory). -/
  lastSyncTime : Nat
  /-- Content of `UserData/relations.json`, as the (friends, groups) lists it
  encodes. -/
  relationsFile : List String × List String
  /-- Contents of the `MessageHistory/<key>.json` files. -/
  historyFiles : List (String × PyVal)
  /-- Content of `UserData/last_sync.txt` (absent before first write). -/
  syncFile : Option Nat

/-- Model of `DataManager.save_relations()`: rewrite `UserData/relations.json` from the
in-memory lists. -/
def save_relations (st : ClientState) : ClientState :=
  { st with relationsFile := (st.friends, st.groups) }

/-- Model of `DataManager.save_sync_time()`: writes `int(time.time())` to
`UserData/last_sync.txt`, then sets `self.last_sync_time = int(time.time())`
— two separate clock reads, `tFile` then `tMem`. -/
def save_sync_time (tFile tMem : Nat) (st : ClientState) : ClientState :=
  { st with syncFile := some tFile, lastSyncTime := tMem }

/-- Model of `list.append` on a JSON value: defined only when the value is a list
(anything else would raise `AttributeError` in the source). -/
def pyListAppend (v : PyVal) (item : PyVal) : Option PyVal :=
  match v with
  | PyVal.list xs => some (PyVal.list (xs ++ [item]))
  | _ => none

/-- Model of `DataManager.save_message(recipient, message, is_group)`: append the
display string to the conversation's in-memory history (creating it if
absent) and rewrite that conversation's file.  `none` models the uncaught
`AttributeError` when the stored history value is not a list; the
file-write `except` branch (I/O failure) is out of scope. -/
def save_message (recipient : String) (message : String) (is_group : Bool)
    (st : ClientState) : Option ClientState :=
  let key := if is_group then "group_" ++ recipient else recipient
  let hist := match dictFind st.messageHistory key with
    | some v => v
    | none => PyVal.list []
  match pyListAppend hist (PyVal.str message) with
  | none => none
  | some newHist =>
      some { st with
              messageHistory := dictInsert st.messageHistory key newHist
              historyFiles := dictInsert st.historyFiles key newHist }

/-- A backup snapshot as assembled by `prepare_backup_data`: the dict
`{'friends': …, 'groups': …, 'message_history': {key → sealed entry}, 'timestamp': …}`. -/
structure Backup where
  friends : List String
  groups : List String
  message_history : List (String × FernetTok)
  timestamp : Nat

/-- Model of `DataManager.prepare_backup_data()`: snapshot friends, groups and the
per-conversation histories, sealing each conversation's message list
individually; `t` is the `int(time.time())` read for the snapshot timestamp.
A conversation is included only if its sealed form is truthy (`if
encrypted_messages:`), which in this model is always the case. -/
def prepare_backup_data (symKey : Nat) (t : Nat) (st : ClientState) : Backup :=
  { friends := st.friends
    groups := st.groups
    message_history := st.messageHistory.filterMap (fun kv =>
      (encrypt_data_for_storage symKey kv.2).map (fun tok => (kv.1, tok)))
    timestamp := t }

/-- Restore loop of `restore_from_backup`: for each sealed conversation, if it
unseals to truthy bytes, `json.loads` the decoded bytes and overwrite that
conversation in memory and on disk; a skipped entry (decryption failure or
falsy bytes) leaves that conversation alone.  A `json.loads` failure raises:
the `.error` carries the partially-mutated state that the enclosing
`try/except` leaves behind. -/
def restore_go (symKey : Nat) : List (String × FernetTok) → ClientState →
    Except ClientState ClientState
  | [], st => Except.ok st
  | (key, tok) :: rest, st =>
      match decrypt_data_from_storage symKey tok with
      | none => restore_go symKey rest st
      | some decrypted =>
          if pyBytesTruthy decrypted then
            match jsonLoadsBytes decrypted with
            | none => Except.error st
            | some messages =>
                restore_go symKey rest
                  { st with
                      messageHistory := dictInsert st.messageHistory key messages
                      historyFiles := dictInsert st.historyFiles key messages }
          else restore_go symKey rest st

/-- Model of `DataManager.restore_from_backup(backup_data)`: `False` on a falsy
argument; otherwise overwrite friends and groups (and rewrite
`relations.json`), run the restore loop, set `self.last_sync_time` to the
snapshot's timestamp, and call `save_sync_time` — which immediately
overwrites both file and memory with fresh clock reads `tFile`, `tMem`.
Returns the success flag and the resulting state (partial on exception). -/
def restore_from_backup (symKey : Nat) (tFile tMem : Nat)
    (backup_data : Option Backup) (st : ClientState) : Bool × ClientState :=
  match backup_data with
  | none => (false, st)
  | some b =>
      let st1 := save_relations { st with friends := b.friends, groups := b.groups }
      match restore_go symKey b.message_history st1 with
      | Except.error stPartial => (false, stPartial)
      | Except.ok st2 =>
          (true, save_sync_time tFile tMem { st2 with lastSyncTime := b.timestamp })

/-! ## `Client/main_messenger.py` — `MessengerWindow` sync operations

A message as delivered by the relay to `poll_for_messages`, already shaped as
the envelope dict it rebuilds (`{'key': encrypted_key, 'message':
encrypted_content}`). -/

structure InboundDirect where
  sender : String
  envelope : Envelope

structure InboundGroup where
  sender : String
  group_name : String
  envelope : Envelope

/-- Direct-message loop of `poll_for_messages`: decrypt each message and save
`"<sender>: <plaintext>"` to that sender's conversation; undecryptable
messages are skipped. -/
def poll_direct_go (privKey : Nat) : List InboundDirect → ClientState → Option ClientState
  | [], st => some st
  | m :: rest, st =>
      match decrypt_message privKey m.envelope with
      | none => poll_direct_go privKey rest st
      | some dm =>
          match save_message m.sender (m.sender ++ ": " ++ dm) false st with
          | none => none
          | some st1 => poll_direct_go privKey rest st1

/-- Group-message loop of `poll_for_messages`: decrypt each message and save
`"<sender> (in <group>): <plaintext>"` to that group's conversation. -/
def poll_group_go (privKey : Nat) : List InboundGroup → ClientState → Option ClientState
  | [], st => some st
  | m :: rest, st =>
      match decrypt_message privKey m.envelope with
      | none => poll_group_go privKey rest st
      | some dm =>
          match save_message m.group_name (m.sender ++ " (in " ++ m.group_name ++ "): " ++ dm) true st with
          | none => none
          | some st1 => poll_group_go privKey rest st1

/-- Model of `MessengerWindow.poll_for_messages()`: no-op without an auth token;
otherwise process the direct poll result, then the group poll result.
`successD`/`successG` and the two lists are what `server_api.get_messages`
and `get_group_messages` returned (a failed call contributes nothing). -/
def poll_for_messages (privKey : Nat) (authToken : Bool)
    (successD : Bool) (direct : List InboundDirect)
    (successG : Bool) (group : List InboundGroup)
    (st : ClientState) : Option ClientState :=
  if !authToken then some st
  else
    match (if successD then poll_direct_go privKey direct st else some st) with
    | none => none
    | some st1 => if successG then poll_group_go privKey group st1 else some st1

/-- Model of `MessengerWindow.backup_user_data()`: no-op without an auth token;
otherwise prepare the snapshot (clock read `t1` for its timestamp), upload
it, and on success call `save_sync_time` (clock reads `t2` for the file,
`t3` for memory).  `pushOk` is the success flag returned by
`server_api.backup_user_data`.  Returns the uploaded snapshot and the new
state. -/
def backup_user_data (symKey : Nat) (authToken : Bool) (t1 t2 t3 : Nat)
    (pushOk : Bool) (st : ClientState) : Option Backup × ClientState :=
  if !authToken then (none, st)
  else
    let b := prepare_backup_data symKey t1 st
    if pushOk then (some b, save_sync_time t2 t3 st) else (some b, st)

/-! ## `ServerSide/database.py` — the relay's SQLite store

Each table is a list of rows in insertion (rowid) order; `AUTOINCREMENT`
columns are modelled by per-table `next…Id` counters.  A SQL `fetchone` is
`List.find?` over the scan order, an `UPDATE … WHERE` is a `List.map`, an
`INSERT` is an append (aborting on a `UNIQUE` violation where the schema
declares one), and `ORDER BY` is a stable sort of the scan. -/

inductive FriendStatus where
  | pending
  | accepted
  | rejected
deriving DecidableEq

/-- The `status` TEXT stored in the `friends` table. -/
def FriendStatus.text : FriendStatus → String
  | pending => "pending"
  | accepted => "accepted"
  | rejected => "rejected"

structure UserRow where
  id : Nat
  username : String
  email : String
  password_hash : String
  public_key : String
  created_at : Nat
deriving DecidableEq

structure TokenRow where
  user_id : Nat
  token : String
  created_at : Nat
  expires_at : Nat
deriving DecidableEq

structure FriendRow where
  id : Nat
  user_id : Nat
  friend_id : Nat
  status : FriendStatus
  created_at : Nat
  updated_at : Option Nat
deriving DecidableEq

structure GroupRow where
  id : Nat
  name : String
  created_by : Nat
  created_at : Nat
deriving DecidableEq

structure GroupMemberRow where
  group_id : Nat
  user_id : Nat
  joined_at : Nat
deriving DecidableEq

structure MsgRow where
  id : Nat
  sender_id : Nat
  recipient_id : Nat
  encrypted_key : String
  encrypted_content : String
  is_group : Bool
  timestamp : Nat
  delivered : Bool
deriving DecidableEq

structure ServerDB where
  users : List UserRow
  auth_tokens : List TokenRow
  friends : List FriendRow
  groups : List GroupRow
  group_members : List GroupMemberRow
  messages : List MsgRow
  nextUserId : Nat
  nextFriendId : Nat
  nextMsgId : Nat

/-- Model of `Database.create_user(username, email, password_hash, public_key)`:
insert and return the new row id, or return `0` on the `IntegrityError`
raised by the `UNIQUE` constraints on `username` and `email`. -/
def create_user (now : Nat) (username email password_hash public_key : String)
    (db : ServerDB) : Nat × ServerDB :=
  if db.users.any (fun u => u.username = username || u.email = email) then
    (0, db)
  else
    (db.nextUserId,
      { db with
          users := db.users ++
            [{ id := db.nextUserId, username := username, email := email,
               password_hash := password_hash, public_key := public_key,
               created_at := now }]
          nextUserId := db.nextUserId + 1 })

/-- Model of `Database.create_auth_token(user_id, token, expires_in=604800)`: insert
the token row; `false` (no insert) on the `UNIQUE` violation for a duplicate
token string. -/
def create_auth_token (now : Nat) (user_id : Nat) (token : String)
    (expires_in : Nat) (db : ServerDB) : Bool × ServerDB :=
  if db.auth_tokens.any (fun r => r.token = token) then (false, db)
  else
    (true,
      { db with auth_tokens := db.auth_tokens ++
          [{ user_id := user_id, token := token, created_at := now,
             expires_at := now + expires_in }] })

/-- Model of `Database.validate_auth_token(token)`: the first row with this token
string and `expires_at > now`, if any. -/
def validate_auth_token (now : Nat) (token : String) (db : ServerDB) : Option Nat :=
  (db.auth_tokens.find? (fun r => r.token = token && decide (now < r.expires_at))).map
    (fun r => r.user_id)

/-- Model of `Database.get_messages(user_id, since_timestamp)` — the direct path:
scan for rows with this recipient, `timestamp > since`, `is_group = 0`, whose
sender joins against `users`; `ORDER BY timestamp ASC` (stable over the
rowid-ordered scan); then flip `delivered` on every returned row. -/
def get_messages (user_id since_timestamp : Nat) (db : ServerDB) :
    List MsgRow × ServerDB :=
  let rows := (db.messages.filter (fun m =>
      m.recipient_id = user_id && decide (since_timestamp < m.timestamp) &&
      !m.is_group && db.users.any (fun u => u.id = m.sender_id))).mergeSort
      (fun a b => decide (a.timestamp ≤ b.timestamp))
  (rows,
    if rows.isEmpty then db
    else
      { db with messages := db.messages.map (fun m =>
          if m.id ∈ rows.map (fun r => r.id) then { m with delivered := true } else m) })

/-- Model of `Database.get_group_messages(user_id, since_timestamp)`: scan for group
rows (`is_group = 1`, `timestamp > since`) whose sender joins against
`users`, whose recipient joins against `groups`, and whose group has a
`group_members` row for this user (unique per `(group_id, user_id)`, so the
join contributes each message at most once); `ORDER BY timestamp ASC`. -/
def get_group_messages (user_id since_timestamp : Nat) (db : ServerDB) : List MsgRow :=
  (db.messages.filter (fun m =>
      m.is_group && decide (since_timestamp < m.timestamp) &&
      db.users.any (fun u => u.id = m.sender_id) &&
      db.groups.any (fun g => g.id = m.recipient_id) &&
      db.group_members.any (fun gm =>
        gm.group_id = m.recipient_id && gm.user_id = user_id))).mergeSort
    (fun a b => decide (a.timestamp ≤ b.timestamp))

/-- Result dict `{"success": …, "message": …}` of the friend operations. -/
structure ApiResult where
  success : Bool
  message : String
deriving DecidableEq

/-- Model of `Database.add_friend_request(user_id, friend_username)`. -/
def add_friend_request (now : Nat) (user_id : Nat) (friend_username : String)
    (db : ServerDB) : ApiResult × ServerDB :=
  match db.users.find? (fun u => u.username = friend_username) with
  | none => ({ success := false, message := "User not found" }, db)
  | some friend =>
      if user_id = friend.id then
        ({ success := false, message := "You cannot add yourself as a friend" }, db)
      else
        match db.friends.find? (fun f =>
            (f.user_id = user_id && f.friend_id = friend.id) ||
            (f.user_id = friend.id && f.friend_id = user_id)) with
        | some existing =>
            match existing.status with
            | FriendStatus.accepted =>
                ({ success := false, message := "Already friends" }, db)
            | FriendStatus.pending =>
                ({ success := false, message := "Friend request already pending" }, db)
            | FriendStatus.rejected =>
                ({ success := true, message := "Friend request sent" },
                  { db with friends := db.friends.map (fun f =>
                      if f.id = existing.id then
                        { f with status := FriendStatus.pending, updated_at := some now }
                      else f) })
        | none =>
            ({ success := true, message := "Friend request sent" },
              { db with
                  friends := db.friends ++
                    [{ id := db.nextFriendId, user_id := user_id,
                       friend_id := friend.id, status := FriendStatus.pending,
                       created_at := now, updated_at := none }]
                  nextFriendId := db.nextFriendId + 1 })

/-- Model of `Database.respond_to_friend_request(request_id, user_id, accept)`.  On
accept, the mirror `accepted` row is inserted; were the mirror ordered pair
already present, the `UNIQUE(user_id, friend_id)` constraint would raise an
uncaught `IntegrityError` before the commit — modelled as `none` with no
state change. -/
def respond_to_friend_request (now : Nat) (request_id user_id : Nat)
    (accept : Bool) (db : ServerDB) : Option (ApiResult × ServerDB) :=
  match db.friends.find? (fun f => f.id = request_id && f.friend_id = user_id) with
  | none => some ({ success := false, message := "Friend request not found" }, db)
  | some request =>
      let status := if accept then FriendStatus.accepted else FriendStatus.rejected
      let updated := db.friends.map (fun f =>
        if f.id = request_id then { f with status := status, updated_at := some now }
        else f)
      if accept then
        if db.friends.any (fun f => f.user_id = user_id && f.friend_id = request.user_id) then
          none
        else
          some ({ success := true, message := "Friend request " ++ status.text },
            { db with
                friends := updated ++
                  [{ id := db.nextFriendId, user_id := user_id,
                     friend_id := request.user_id, status := FriendStatus.accepted,
                     created_at := now, updated_at := none }]
                nextFriendId := db.nextFriendId + 1 })
      else
        some ({ success := true, message := "Friend request " ++ status.text },
          { db with friends := updated })

/-! ## `ServerSide/server.py` — request handlers -/

/-- Python `str.split(" ")` (split on every single space). -/
def splitSpaceAux : List Char → List Char → List String
  | [], acc => [String.mk acc.reverse]
  | c :: cs, acc =>
      if c = ' ' then String.mk acc.reverse :: splitSpaceAux cs []
      else splitSpaceAux cs (c :: acc)

/-- Model of `authorization.split(" ")`, over the character list so that it evaluates
in the kernel; same semantics as Python `str.split(" ")`. -/
def pySplitSpace (s : String) : List String := splitSpaceAux s.data []

/-- Model of `authorization.startswith(pre)`. -/
def pyStartsWith (s pre : String) : Bool := pre.data.isPrefixOf s.data

/-- Token extraction `authorization.split(" ")[1]` of `get_current_user`;
the guard `startswith("Bearer ")` guarantees index 1 exists. -/
def bearerToken (s : String) : String :=
  match pySplitSpace s with
  | _ :: t :: _ => t
  | _ => ""

/-- Model of `get_current_user(authorization)`: `none` is the 401 `HTTPException`.
Rejects a missing or non-`Bearer` header, then validates the token after the
first space lazily against the store; note the Python falsiness check `if not
user_id` also rejects a (schema-impossible) user id `0`. -/
def get_current_user (now : Nat) (authorization : Option String)
    (db : ServerDB) : Option Nat :=
  match authorization with
  | none => none
  | some s =>
      if !pyStartsWith s "Bearer " then none
      else
        match validate_auth_token now (bearerToken s) db with
        | none => none
        | some uid => if uid = 0 then none else some uid

/-- Response of the `register` handler: the 400 `HTTPException` detail, or the
success payload `{token, user_id}`. -/
inductive RegisterResult where
  | error (detail : String)
  | ok (token : String) (user_id : Nat)
deriving DecidableEq

/-- Model of `register(user)`: hash the password (the salted PBKDF2 digest is the
opaque `password_hash` argument, since the salt is random), create the user —
rejecting a duplicate username or email with a 400 and no further effect —
then issue a fresh bearer token (`generate_token()` is the opaque `token`
argument) with the default 7-day expiry. -/
def register (now : Nat) (username email password_hash public_key : String)
    (token : String) (db : ServerDB) : RegisterResult × ServerDB :=
  let (user_id, db1) := create_user now username email password_hash public_key db
  if user_id = 0 then (RegisterResult.error "Username or email already exists", db1)
  else
    let (_, db2) := create_auth_token now user_id token 604800 db1
    (RegisterResult.ok token user_id, db2)

/-! ## Theorems -/

/-- C1: for every plaintext `m` and every keypair (public and private half
carrying the same identifier `kp`), decrypting with the private key the
envelope produced by `encrypt_message` for the recipient whose cached public
key is that keypair's public half returns exactly `m`. -/
theorem C1_hybrid_roundtrip (friendKeys : String → Option Nat) (otk kp : Nat)
    (m recipient : String) (e : Envelope)
    (hk : friendKeys recipient = some kp)
    (he : encrypt_message friendKeys otk m recipient = some e) :
    decrypt_message kp e = some m := by
  unfold encrypt_message at he
  rw [hk] at he
  cases he
  simp [decrypt_message, rsaDecrypt, fernetEncrypt, fernetDecrypt, utf8Decode]

/-- Witness for C1 at a concrete keypair, one-time key and message. -/
theorem C1_hybrid_roundtrip_witness :
    decrypt_message 7
      { key := RsaCipher.wrap 7 3
        message := FernetTok.valid 3 (PyVal.bytesUtf8 "hi") } = some "hi" :=
  C1_hybrid_roundtrip (fun _ => some 7) 3 7 "hi" "bob" _ rfl rfl

/-- Keys of the envelope dict after `dictInsert` of a fresh key: the key is
appended. -/
theorem dictInsert_map_fst_of_not_mem {α : Type} (d : List (String × α))
    (k : String) (v : α) (h : k ∉ d.map Prod.fst) :
    (dictInsert d k v).map Prod.fst = d.map Prod.fst ++ [k] := by
  induction d with
  | nil => rfl
  | cons kv rest ih =>
      simp only [List.map_cons, List.mem_cons] at h
      push_neg at h
      simp [dictInsert, Ne.symm h.1, ih h.2]

/-- Success run of the `encrypt_group_message` loop: when every remaining
member's key is available and the remaining members are fresh and distinct,
the loop returns the accumulator extended by one envelope per member, in
member order. -/
theorem encrypt_group_message_go_spec (friendKeys : String → Option Nat)
    (otks : String → Nat) (m : String) :
    ∀ (members : List String) (acc : List (String × Envelope)),
      members.Nodup →
      (∀ mem ∈ members, (friendKeys mem).isSome) →
      (∀ mem ∈ members, mem ∉ acc.map Prod.fst) →
      ∃ d, encrypt_group_message_go friendKeys otks m members acc = some d ∧
        d.map Prod.fst = acc.map Prod.fst ++ members
  | [], acc, _, _, _ => ⟨acc, rfl, by simp⟩
  | mem :: rest, acc, hnd, hkeys, hfresh => by
      have hmem : (friendKeys mem).isSome := hkeys mem (List.mem_cons_self _ _)
      obtain ⟨pk, hpk⟩ := Option.isSome_iff_exists.mp hmem
      set e : Envelope :=
        { key := RsaCipher.wrap pk (otks mem)
          message := fernetEncrypt (otks mem) (PyVal.bytesUtf8 m) } with he
      have henc : encrypt_message friendKeys (otks mem) m mem = some e := by
        unfold encrypt_message; rw [hpk]
      have hndr := hnd.of_cons
      have hmemrest : mem ∉ rest := (List.nodup_cons.mp hnd).1
      have hfreshmem : mem ∉ acc.map Prod.fst := hfresh mem (List.mem_cons_self _ _)
      have hfresh2 : ∀ x ∈ rest, x ∉ (dictInsert acc mem e).map Prod.fst := by
        intro x hx
        rw [dictInsert_map_fst_of_not_mem acc mem e hfreshmem]
        simp only [List.mem_append, List.mem_singleton]
        rintro (h | h)
        · exact hfresh x (List.mem_cons_of_mem _ hx) h
        · exact hmemrest (h ▸ hx)
      obtain ⟨d, hd, hkeysEq⟩ := encrypt_group_message_go_spec friendKeys otks m rest
        (dictInsert acc mem e) hndr (fun x hx => hkeys x (List.mem_cons_of_mem _ hx)) hfresh2
      refine ⟨d, ?_, ?_⟩
      · unfold encrypt_group_message_go
        rw [henc]
        exact hd
      · rw [hkeysEq, dictInsert_map_fst_of_not_mem acc mem e hfreshmem]
        simp

/-- Failure run of the `encrypt_group_message` loop: a member with a missing
key anywhere in the remaining list collapses the whole call to `none`. -/
theorem encrypt_group_message_go_none (friendKeys : String → Option Nat)
    (otks : String → Nat) (m : String) :
    ∀ (members : List String) (acc : List (String × Envelope)),
      (∃ mem ∈ members, friendKeys mem = none) →
      encrypt_group_message_go friendKeys otks m members acc = none
  | [], _, h => by simp at h
  | mem :: rest, acc, h => by
      unfold encrypt_group_message_go
      cases hpk : friendKeys mem with
      | none => simp [encrypt_message, hpk]
      | some pk =>
          have henc : encrypt_message friendKeys (otks mem) m mem =
              some { key := RsaCipher.wrap pk (otks mem)
                     message := fernetEncrypt (otks mem) (PyVal.bytesUtf8 m) } := by
            unfold encrypt_message; rw [hpk]
          rw [henc]
          obtain ⟨x, hx, hxnone⟩ := h
          rcases List.mem_cons.mp hx with rfl | hxr
          · exact absurd hxnone (by simp [hpk])
          · exact encrypt_group_message_go_none friendKeys otks m rest _ ⟨x, hxr, hxnone⟩

/-- C2: for a duplicate-free member set, group encryption succeeds exactly
when every member's public key is available, in which case it yields a dict
with exactly one envelope per member (keys equal to the member list, hence
`|M|` envelopes); and as soon as any member's key is missing (the only
per-member failure mode of `encrypt_message` in this model) the whole call
returns `None` — no partial fan-out is ever produced. -/
theorem C2_group_fanout (friendKeys : String → Option Nat) (otks : String → Nat)
    (m : String) (members : List String) (hnd : members.Nodup) :
    ((∀ mem ∈ members, (friendKeys mem).isSome) →
      ∃ d, encrypt_group_message friendKeys otks m members = some d ∧
        d.map Prod.fst = members ∧ d.length = members.length)
    ∧ ((∃ mem ∈ members, friendKeys mem = none) →
      encrypt_group_message friendKeys otks m members = none) := by
  constructor
  · intro hkeys
    obtain ⟨d, hd, hkeysEq⟩ := encrypt_group_message_go_spec friendKeys otks m members []
      hnd hkeys (by simp)
    refine ⟨d, hd, by simpa using hkeysEq, ?_⟩
    have := congrArg List.length hkeysEq
    simpa using this
  · intro h
    exact encrypt_group_message_go_none friendKeys otks m members [] h

/-- Witness for C2: a two-member group fans out to exactly two envelopes, and
one missing key makes the whole call fail. -/
theorem C2_group_fanout_witness :
    (∃ d, encrypt_group_message (fun _ => some 5) (fun _ => 9) "hi" ["a", "b"] = some d ∧
        d.map Prod.fst = ["a", "b"] ∧ d.length = (["a", "b"] : List String).length)
    ∧ encrypt_group_message (fun r => if r = "a" then some 5 else none)
        (fun _ => 9) "hi" ["a", "b"] = none :=
  ⟨(C2_group_fanout (fun _ => some 5) (fun _ => 9) "hi" ["a", "b"] (by decide)).1
      (by intro mem _; exact rfl),
    (C2_group_fanout (fun r => if r = "a" then some 5 else none) (fun _ => 9) "hi"
        ["a", "b"] (by decide)).2 ⟨"b", by decide, by decide⟩⟩

/-- C4 counterexample: sealing the string `"a"` and opening it returns the
UTF-8 *bytes* `b"a"`, not the string `"a"` itself — `decrypt_data_from_storage`
never deserializes, so the round trip is not the identity on values. -/
theorem C4_seal_open_counterexample :
    (encrypt_data_for_storage 0 (PyVal.str "a")).bind (decrypt_data_from_storage 0)
      = some (PyVal.bytesUtf8 "a")
    ∧ (encrypt_data_for_storage 0 (PyVal.str "a")).bind (decrypt_data_from_storage 0)
      ≠ some (PyVal.str "a") := by
  refine ⟨rfl, ?_⟩
  intro h
  rw [show (encrypt_data_for_storage 0 (PyVal.str "a")).bind (decrypt_data_from_storage 0)
      = some (PyVal.bytesUtf8 "a") from rfl] at h
  simp at h

/-- The value shapes the claim quantifies over: a string, a list, or a
mapping. -/
def serializableShape (v : PyVal) : Prop :=
  (∃ s, v = PyVal.str s) ∨ (∃ xs, v = PyVal.list xs) ∨ (∃ kvs, v = PyVal.dict kvs)

/-- C4 amended: for every string, list, or mapping `v`, opening the sealed
form of `v` returns the canonical serialized byte form of `v` (UTF-8 bytes of
a string, UTF-8 JSON bytes of a list or mapping) — which is never `v` itself —
and opening a tampered ciphertext fails rather than returning a value. -/
theorem C4_seal_open_serialized (symKey : Nat) (v : PyVal)
    (hv : serializableShape v) :
    (encrypt_data_for_storage symKey v).bind (decrypt_data_from_storage symKey)
        = some (storageSerialize v)
    ∧ storageSerialize v ≠ v
    ∧ decrypt_data_from_storage symKey FernetTok.tampered = none := by
  refine ⟨?_, ?_, rfl⟩
  · simp [encrypt_data_for_storage, decrypt_data_from_storage, fernetEncrypt, fernetDecrypt]
  · rcases hv with ⟨s, rfl⟩ | ⟨xs, rfl⟩ | ⟨kvs, rfl⟩ <;> simp [storageSerialize]

/-- Witness for C4 amended, at the list value `["hi"]`. -/
theorem C4_seal_open_serialized_witness :
    (encrypt_data_for_storage 2 (PyVal.list [PyVal.str "hi"])).bind
        (decrypt_data_from_storage 2)
      = some (storageSerialize (PyVal.list [PyVal.str "hi"]))
    ∧ storageSerialize (PyVal.list [PyVal.str "hi"]) ≠ PyVal.list [PyVal.str "hi"]
    ∧ decrypt_data_from_storage 2 FernetTok.tampered = none :=
  C4_seal_open_serialized 2 (PyVal.list [PyVal.str "hi"])
    (Or.inr (Or.inl ⟨[PyVal.str "hi"], rfl⟩))

/-- C10: a registration whose username or email already exists fails with the
400 detail and has no side effects at all — the whole database (user rows and
token rows included) is returned unchanged and no token is issued. -/
theorem C10_register_duplicate (now : Nat)
    (username email password_hash public_key token : String) (db : ServerDB)
    (h : ∃ u ∈ db.users, u.username = username ∨ u.email = email) :
    register now username email password_hash public_key token db
      = (RegisterResult.error "Username or email already exists", db) := by
  have hany : db.users.any (fun u => u.username = username || u.email = email) = true := by
    rw [List.any_eq_true]
    obtain ⟨u, hu, hcase⟩ := h
    exact ⟨u, hu, by rcases hcase with h1 | h1 <;> simp [h1]⟩
  simp [register, create_user, hany]

/-- Database for the C10 witness: one user named `alice`. -/
def dbC10 : ServerDB :=
  { users := [{ id := 1, username := "alice", email := "alice@example.com",
                password_hash := "h", public_key := "pk", created_at := 0 }]
    auth_tokens := [], friends := [], groups := [], group_members := []
    messages := [], nextUserId := 2, nextFriendId := 1, nextMsgId := 1 }

/-- Witness for C10: re-registering the username `alice` leaves the store
untouched and yields the 400 error. -/
theorem C10_register_duplicate_witness :
    register 5 "alice" "other@example.com" "h2" "pk2" "tok" dbC10
      = (RegisterResult.error "Username or email already exists", dbC10) :=
  C10_register_duplicate 5 "alice" "other@example.com" "h2" "pk2" "tok" dbC10
    (by decide)

/-- Database for the C8 theorems: one user holding one token `t` that expires
at time 100. -/
def dbC8 : ServerDB :=
  { users := [{ id := 1, username := "u", email := "u@example.com",
                password_hash := "h", public_key := "pk", created_at := 0 }]
    auth_tokens := [{ user_id := 1, token := "t", created_at := 0, expires_at := 100 }]
    friends := [], groups := [], group_members := [], messages := []
    nextUserId := 2, nextFriendId := 1, nextMsgId := 1 }

/-- C8 counterexample: at `now = 100` the recorded token `t` is not expired in
the claim's sense (`now > expires_at` is false), yet the call is rejected —
the code requires `expires_at > now` strictly, so it already rejects at
`now = expires_at`. -/
theorem C8_lazy_auth_counterexample :
    get_current_user 100 (some "Bearer t") dbC8 = none
    ∧ dbC8.auth_tokens.any (fun r => r.token = "t" && !decide (100 > r.expires_at)) = true := by
  constructor
  · decide
  · decide

/-- C8 amended: token validity is checked lazily at call time; the call is
rejected exactly when the header is absent or not a bearer header, or the
presented token is unknown, or `now ≥ expires_at` (so the boundary instant
`now = expires_at` is already rejected); a call with a recorded token whose
`expires_at` lies strictly in the future is accepted as that token's user. -/
theorem C8_lazy_auth (now : Nat) (db : ServerDB) (auth : Option String)
    (hwf : ∀ r ∈ db.auth_tokens, r.user_id ≠ 0) :
    ((get_current_user now auth db).isSome ↔
      ∃ s, auth = some s ∧ pyStartsWith s "Bearer " = true ∧
        ∃ r ∈ db.auth_tokens, r.token = bearerToken s ∧ now < r.expires_at)
    ∧ (∀ s r, auth = some s → pyStartsWith s "Bearer " = true →
        db.auth_tokens.find?
            (fun x => x.token = bearerToken s && decide (now < x.expires_at)) = some r →
        get_current_user now auth db = some r.user_id) := by
  constructor
  · cases auth with
    | none => simp [get_current_user]
    | some s =>
        cases hB : pyStartsWith s "Bearer " with
        | false => simp [get_current_user, hB]
        | true =>
            simp only [get_current_user, hB, Bool.not_true, Bool.false_eq_true,
              if_false]
            cases hv : validate_auth_token now (bearerToken s) db with
            | none =>
                simp only [Option.isSome_none, Bool.false_eq_true, false_iff]
                rintro ⟨s', hs', -, r, hr, htok, hexp⟩
                rw [Option.some.injEq] at hs'
                subst hs'
                rw [validate_auth_token] at hv
                have hnone := Option.map_eq_none'.mp hv
                rw [List.find?_eq_none] at hnone
                have := hnone r hr
                simp [htok, hexp] at this
            | some uid =>
                rw [validate_auth_token] at hv
                obtain ⟨r, hfind, huid⟩ := Option.map_eq_some'.mp hv
                have hrmem := List.mem_of_find?_eq_some hfind
                have hne : uid ≠ 0 := huid ▸ hwf r hrmem
                have hp := List.find?_some hfind
                simp only [Bool.and_eq_true, decide_eq_true_eq] at hp
                show (if uid = 0 then (none : Option Nat) else some uid).isSome = true ↔ _
                rw [if_neg hne]
                constructor
                · intro _
                  exact ⟨s, rfl, hB, r, hrmem, hp.1, hp.2⟩
                · intro _
                  rfl
  · intro s r hs hB hfind
    subst hs
    have hrmem := List.mem_of_find?_eq_some hfind
    have hne : r.user_id ≠ 0 := hwf r hrmem
    simp only [get_current_user, hB, Bool.not_true, Bool.false_eq_true, if_false]
    rw [validate_auth_token, hfind]
    simp [hne]

/-- Witness for C8 amended, at `now = 50` against the same store: the token is
strictly unexpired and the call is accepted as user 1. -/
theorem C8_lazy_auth_witness :
    ((get_current_user 50 (some "Bearer t") dbC8).isSome ↔
      ∃ s, (some "Bearer t" : Option String) = some s ∧ pyStartsWith s "Bearer " = true ∧
        ∃ r ∈ dbC8.auth_tokens, r.token = bearerToken s ∧ 50 < r.expires_at)
    ∧ (∀ s r, (some "Bearer t" : Option String) = some s →
        pyStartsWith s "Bearer " = true →
        dbC8.auth_tokens.find?
            (fun x => x.token = bearerToken s && decide (50 < x.expires_at)) = some r →
        get_current_user 50 (some "Bearer t") dbC8 = some r.user_id) :=
  C8_lazy_auth 50 dbC8 (some "Bearer t") (by decide)

/-- Empty client state used by the C6 theorems. -/
def emptyClientState : ClientState :=
  { friends := [], groups := [], messageHistory := [], lastSyncTime := 0
    relationsFile := ([], []), historyFiles := [], syncFile := none }

/-- C6 counterexample: the clock advances by one second between preparing the
snapshot (read 100) and saving the sync time (reads 101, 101); the uploaded
snapshot records timestamp 100 but the watermark afterwards is 101 —
`save_sync_time` re-reads the clock instead of reusing the snapshot's
timestamp. -/
theorem C6_watermark_counterexample :
    ((backup_user_data 0 true 100 101 101 true emptyClientState).1.map
        Backup.timestamp = some 100)
    ∧ (backup_user_data 0 true 100 101 101 true emptyClientState).2.lastSyncTime = 101
    ∧ (backup_user_data 0 true 100 101 101 true emptyClientState).2.lastSyncTime ≠ 100 := by
  refine ⟨rfl, rfl, ?_⟩
  decide

/-- C6 amended: a successful `backup_user_data` uploads the snapshot
timestamped with the clock read `t1` taken when it was prepared, then sets the
in-memory watermark to the clock read `t3` taken by `save_sync_time` and
persists the clock read `t2` to `last_sync.txt`; with a monotone clock the
watermark is at least the snapshot's timestamp, and equals it exactly when the
clock did not advance between the two reads. -/
theorem C6_watermark_after_push (symKey t1 t2 t3 : Nat) (pushOk : Bool)
    (st : ClientState) (hmono : t1 ≤ t2 ∧ t2 ≤ t3) (hok : pushOk = true) :
    (backup_user_data symKey true t1 t2 t3 pushOk st).1
        = some (prepare_backup_data symKey t1 st)
    ∧ (prepare_backup_data symKey t1 st).timestamp = t1
    ∧ (backup_user_data symKey true t1 t2 t3 pushOk st).2.lastSyncTime = t3
    ∧ (backup_user_data symKey true t1 t2 t3 pushOk st).2.syncFile = some t2
    ∧ (prepare_backup_data symKey t1 st).timestamp
        ≤ (backup_user_data symKey true t1 t2 t3 pushOk st).2.lastSyncTime
    ∧ (t1 = t3 →
        (backup_user_data symKey true t1 t2 t3 pushOk st).2.lastSyncTime
          = (prepare_backup_data symKey t1 st).timestamp) := by
  subst hok
  refine ⟨rfl, rfl, rfl, rfl, ?_, ?_⟩
  · exact le_trans hmono.1 hmono.2
  · intro h
    simp [backup_user_data, save_sync_time, prepare_backup_data, h]

/-- Witness for C6 amended at concrete clock reads 100, 101, 101. -/
theorem C6_watermark_after_push_witness :
    (backup_user_data 0 true 100 101 101 true emptyClientState).1
        = some (prepare_backup_data 0 100 emptyClientState)
    ∧ (prepare_backup_data 0 100 emptyClientState).timestamp = 100
    ∧ (backup_user_data 0 true 100 101 101 true emptyClientState).2.lastSyncTime = 101
    ∧ (backup_user_data 0 true 100 101 101 true emptyClientState).2.syncFile = some 101
    ∧ (prepare_backup_data 0 100 emptyClientState).timestamp
        ≤ (backup_user_data 0 true 100 101 101 true emptyClientState).2.lastSyncTime
    ∧ (100 = 101 →
        (backup_user_data 0 true 100 101 101 true emptyClientState).2.lastSyncTime
          = (prepare_backup_data 0 100 emptyClientState).timestamp) :=
  C6_watermark_after_push 0 100 101 101 true emptyClientState (by decide) rfl

/-- Frame of `save_message`: a successful save never touches the sync
watermark, neither the in-memory field nor the persisted file. -/
theorem save_message_watermark_frame (recipient message : String) (is_group : Bool)
    (st st' : ClientState) (h : save_message recipient message is_group st = some st') :
    st'.lastSyncTime = st.lastSyncTime ∧ st'.syncFile = st.syncFile := by
  simp only [save_message] at h
  split at h <;> cases h
  exact ⟨rfl, rfl⟩

/-- The direct-message loop of the poll never touches the sync watermark. -/
theorem poll_direct_go_watermark_frame (privKey : Nat) :
    ∀ (msgs : List InboundDirect) (st st' : ClientState),
      poll_direct_go privKey msgs st = some st' →
      st'.lastSyncTime = st.lastSyncTime ∧ st'.syncFile = st.syncFile
  | [], st, st', h => by cases h; exact ⟨rfl, rfl⟩
  | m :: rest, st, st', h => by
      unfold poll_direct_go at h
      split at h
      · exact poll_direct_go_watermark_frame privKey rest st st' h
      · split at h
        · cases h
        · rename_i st1 hs1
          have h1 := save_message_watermark_frame _ _ _ _ _ hs1
          have h2 := poll_direct_go_watermark_frame privKey rest st1 st' h
          exact ⟨h2.1.trans h1.1, h2.2.trans h1.2⟩

/-- The group-message loop of the poll never touches the sync watermark. -/
theorem poll_group_go_watermark_frame (privKey : Nat) :
    ∀ (msgs : List InboundGroup) (st st' : ClientState),
      poll_group_go privKey msgs st = some st' →
      st'.lastSyncTime = st.lastSyncTime ∧ st'.syncFile = st.syncFile
  | [], st, st', h => by cases h; exact ⟨rfl, rfl⟩
  | m :: rest, st, st', h => by
      unfold poll_group_go at h
      split at h
      · exact poll_group_go_watermark_frame privKey rest st st' h
      · split at h
        · cases h
        · rename_i st1 hs1
          have h1 := save_message_watermark_frame _ _ _ _ _ hs1
          have h2 := poll_group_go_watermark_frame privKey rest st1 st' h
          exact ⟨h2.1.trans h1.1, h2.2.trans h1.2⟩

/-- C7: whatever a message pull returns and however many messages it appends
to local history, `poll_for_messages` leaves the `last_sync_time` watermark —
both the in-memory field and the persisted `last_sync.txt` — exactly as it
was; in this design only a backup push moves it. -/
theorem C7_poll_preserves_watermark (privKey : Nat)
    (authToken successD successG : Bool)
    (direct : List InboundDirect) (group : List InboundGroup)
    (st st' : ClientState)
    (h : poll_for_messages privKey authToken successD direct successG group st = some st') :
    st'.lastSyncTime = st.lastSyncTime ∧ st'.syncFile = st.syncFile := by
  unfold poll_for_messages at h
  cases authToken with
  | false => cases h; exact ⟨rfl, rfl⟩
  | true =>
      simp only [Bool.not_true, Bool.false_eq_true, if_false] at h
      split at h
      · cases h
      · rename_i st1 hD
        have h1 : st1.lastSyncTime = st.lastSyncTime ∧ st1.syncFile = st.syncFile := by
          cases successD with
          | false =>
              rw [if_neg (by simp)] at hD
              cases hD
              exact ⟨rfl, rfl⟩
          | true =>
              rw [if_pos rfl] at hD
              exact poll_direct_go_watermark_frame privKey direct st st1 hD
        have h2 : st'.lastSyncTime = st1.lastSyncTime ∧ st'.syncFile = st1.syncFile := by
          cases successG with
          | false =>
              rw [if_neg (by simp)] at h
              cases h
              exact ⟨rfl, rfl⟩
          | true =>
              rw [if_pos rfl] at h
              exact poll_group_go_watermark_frame privKey group st1 st' h
        exact ⟨h2.1.trans h1.1, h2.2.trans h1.2⟩

/-- Client state with one conversation and a nonzero watermark, for the C7
witness. -/
def stC7 : ClientState :=
  { friends := ["bob"], groups := [], messageHistory := [("bob", PyVal.list [])]
    lastSyncTime := 42, relationsFile := (["bob"], []), historyFiles := []
    syncFile := some 42 }

/-- The state after the C7 witness pull: one decrypted direct message appended
to the `bob` conversation, watermark untouched. -/
def stC7res : ClientState :=
  { friends := ["bob"], groups := []
    messageHistory := [("bob", PyVal.list [PyVal.str "bob: hi"])]
    lastSyncTime := 42, relationsFile := (["bob"], [])
    historyFiles := [("bob", PyVal.list [PyVal.str "bob: hi"])]
    syncFile := some 42 }

/-- Witness for C7: a pull that decrypts and appends one direct message leaves
the watermark 42 untouched. -/
theorem C7_poll_preserves_watermark_witness :
    poll_for_messages 7 true true
        [{ sender := "bob"
           envelope := { key := RsaCipher.wrap 7 3
                         message := FernetTok.valid 3 (PyVal.bytesUtf8 "hi") } }]
        true [] stC7 = some stC7res
    ∧ stC7res.lastSyncTime = stC7.lastSyncTime ∧ stC7res.syncFile = stC7.syncFile :=
  ⟨rfl,
    C7_poll_preserves_watermark 7 true true true
      [{ sender := "bob"
         envelope := { key := RsaCipher.wrap 7 3
                       message := FernetTok.valid 3 (PyVal.bytesUtf8 "hi") } }]
      [] stC7 stC7res rfl⟩
/-- Lookup of a freshly inserted key. -/
theorem dictFind_dictInsert_self {α : Type} (d : List (String × α)) (k : String) (v : α) :
    dictFind (dictInsert d k v) k = some v := by
  induction d with
  | nil => simp [dictInsert, dictFind]
  | cons kv rest ih =>
      obtain ⟨k', v'⟩ := kv
      by_cases h : k' = k
      · simp [dictInsert, h, dictFind]
      · simp only [dictFind] at ih
        simp [dictInsert, h, dictFind, List.find?_cons_of_neg, ih]

/-- Insertion under a different key does not change a lookup. -/
theorem dictFind_dictInsert_ne {α : Type} (d : List (String × α)) (kIns k : String)
    (v : α) (h : kIns ≠ k) : dictFind (dictInsert d kIns v) k = dictFind d k := by
  induction d with
  | nil => simp [dictInsert, dictFind, h]
  | cons kv rest ih =>
      obtain ⟨k', v'⟩ := kv
      by_cases hk : k' = kIns
      · subst hk
        simp [dictInsert, dictFind, h]
      · simp only [dictFind] at ih
        by_cases hk2 : k' = k
        · simp [dictInsert, hk, dictFind, hk2, Ne.symm h]
        · simp [dictInsert, hk, dictFind, hk2, ih]

/-- Inserting a fresh key appends the binding. -/
theorem dictInsert_append_of_not_mem {α : Type} (d : List (String × α)) (k : String)
    (v : α) (h : k ∉ d.map Prod.fst) : dictInsert d k v = d ++ [(k, v)] := by
  induction d with
  | nil => rfl
  | cons kv rest ih =>
      obtain ⟨k', v'⟩ := kv
      simp only [List.map_cons, List.mem_cons] at h
      push_neg at h
      simp [dictInsert, Ne.symm h.1, ih h.2]

/-- The state a restore run leaves behind, whether it completed or was cut
short by the exception. -/
def exceptState : Except ClientState ClientState → ClientState
  | Except.ok st => st
  | Except.error st => st

/-- The restore loop only rewrites conversation histories: friends, groups,
the relations file, the watermark and the sync file are untouched, on the
success and on the exception path alike. -/
theorem restore_go_frame (symKey : Nat) :
    ∀ (entries : List (String × FernetTok)) (st : ClientState),
      (exceptState (restore_go symKey entries st)).friends = st.friends
      ∧ (exceptState (restore_go symKey entries st)).groups = st.groups
      ∧ (exceptState (restore_go symKey entries st)).relationsFile = st.relationsFile
      ∧ (exceptState (restore_go symKey entries st)).lastSyncTime = st.lastSyncTime
      ∧ (exceptState (restore_go symKey entries st)).syncFile = st.syncFile
  | [], st => ⟨rfl, rfl, rfl, rfl, rfl⟩
  | (k, tok) :: rest, st => by
      simp only [restore_go]
      split
      · exact restore_go_frame symKey rest st
      · split
        · split
          · exact ⟨rfl, rfl, rfl, rfl, rfl⟩
          · exact restore_go_frame symKey rest _
        · exact restore_go_frame symKey rest st

/-- A conversation whose key does not occur in the snapshot is left exactly as
it was by the restore loop. -/
theorem restore_go_find_untouched (symKey : Nat) (k : String) :
    ∀ (entries : List (String × FernetTok)) (st : ClientState),
      k ∉ entries.map Prod.fst →
      dictFind (exceptState (restore_go symKey entries st)).messageHistory k
        = dictFind st.messageHistory k
  | [], st, _ => rfl
  | (k', tok) :: rest, st, h => by
      simp only [List.map_cons, List.mem_cons] at h
      push_neg at h
      simp only [restore_go]
      split
      · exact restore_go_find_untouched symKey k rest st h.2
      · split
        · split
          · rfl
          · rw [restore_go_find_untouched symKey k rest _ h.2]
            exact dictFind_dictInsert_ne st.messageHistory k' k _ (Ne.symm h.1)
        · exact restore_go_find_untouched symKey k rest st h.2

/-- A conversation present in the snapshot whose entry unseals to truthy bytes
that parse as JSON ends up in the restored history with exactly the
snapshot's content. -/
theorem restore_go_find_overwrite (symKey : Nat) :
    ∀ (entries : List (String × FernetTok)) (st : ClientState) (k : String)
      (tok : FernetTok) (d msgs : PyVal) (st2 : ClientState),
      (entries.map Prod.fst).Nodup →
      (k, tok) ∈ entries →
      decrypt_data_from_storage symKey tok = some d →
      pyBytesTruthy d = true →
      jsonLoadsBytes d = some msgs →
      restore_go symKey entries st = Except.ok st2 →
      dictFind st2.messageHistory k = some msgs
  | [], _, _, _, _, _, _, _, hmem, _, _, _, _ => absurd hmem (List.not_mem_nil _)
  | (k', tok') :: rest, st, k, tok, d, msgs, st2, hnd, hmem, hdec, ht, hloads, h => by
      simp only [List.map_cons, List.nodup_cons] at hnd
      simp only [restore_go] at h
      rcases List.mem_cons.mp hmem with heq | hmem2
      · simp only [Prod.mk.injEq] at heq
        obtain ⟨hk, htok⟩ := heq
        subst hk
        subst htok
        split at h
        · rename_i hd0
          rw [hdec] at hd0
          cases hd0
        · rename_i decrypted hd1
          rw [hdec] at hd1
          injection hd1 with hd1
          subst hd1
          rw [if_pos ht] at h
          rw [hloads] at h
          have h2 : restore_go symKey rest
              { st with messageHistory := dictInsert st.messageHistory k msgs
                        historyFiles := dictInsert st.historyFiles k msgs }
              = Except.ok st2 := h
          have hu := restore_go_find_untouched symKey k rest
            { st with messageHistory := dictInsert st.messageHistory k msgs
                      historyFiles := dictInsert st.historyFiles k msgs } hnd.1
          rw [h2] at hu
          simp only [exceptState] at hu
          rw [hu]
          exact dictFind_dictInsert_self st.messageHistory k msgs
      · split at h
        · exact restore_go_find_overwrite symKey rest st k tok d msgs st2
            hnd.2 hmem2 hdec ht hloads h
        · split at h
          · split at h
            · cases h
            · exact restore_go_find_overwrite symKey rest _ k tok d msgs st2
                hnd.2 hmem2 hdec ht hloads h
          · exact restore_go_find_overwrite symKey rest st k tok d msgs st2
              hnd.2 hmem2 hdec ht hloads h

/-- The value shapes whose storage serialization is a JSON byte string: lists
and mappings (every conversation history handled by the data manager is a
list of display strings). -/
def jsonContainerShape (v : PyVal) : Prop :=
  (∃ xs, v = PyVal.list xs) ∨ (∃ kvs, v = PyVal.dict kvs)

/-- Running the restore loop over the sealed image of an association list of
container values, starting from a state whose histories do not mention its
keys, appends exactly the original list to the histories. -/
theorem restore_go_roundtrip (symKey : Nat) :
    ∀ (orig : List (String × PyVal)) (st : ClientState),
      (orig.map Prod.fst).Nodup →
      (∀ kv ∈ orig, jsonContainerShape kv.2) →
      (∀ kv ∈ orig, kv.1 ∉ st.messageHistory.map Prod.fst) →
      (∀ kv ∈ orig, kv.1 ∉ st.historyFiles.map Prod.fst) →
      restore_go symKey
          (orig.map (fun kv => (kv.1, fernetEncrypt symKey (storageSerialize kv.2)))) st
        = Except.ok { st with
            messageHistory := st.messageHistory ++ orig
            historyFiles := st.historyFiles ++ orig }
  | [], st, _, _, _, _ => by simp [restore_go]
  | (k, v) :: rest, st, hnd, hshape, hfresh1, hfresh2 => by
      simp only [List.map_cons, List.nodup_cons] at hnd
      have hsh := hshape (k, v) (List.mem_cons_self _ _)
      have hser : storageSerialize v = PyVal.bytesJson v := by
        rcases hsh with ⟨xs, rfl⟩ | ⟨kvs, rfl⟩ <;> rfl
      have hdecv : decrypt_data_from_storage symKey
          (fernetEncrypt symKey (storageSerialize v)) = some (PyVal.bytesJson v) := by
        simp [decrypt_data_from_storage, fernetEncrypt, fernetDecrypt, hser]
      have hk1 : k ∉ st.messageHistory.map Prod.fst :=
        hfresh1 (k, v) (List.mem_cons_self _ _)
      have hk2 : k ∉ st.historyFiles.map Prod.fst :=
        hfresh2 (k, v) (List.mem_cons_self _ _)
      have hstep := restore_go_roundtrip symKey rest
        { st with messageHistory := st.messageHistory ++ [(k, v)]
                  historyFiles := st.historyFiles ++ [(k, v)] }
        hnd.2 (fun kv hkv => hshape kv (List.mem_cons_of_mem _ hkv))
        (by
          intro kv hkv
          simp only [List.map_append, List.mem_append, List.map_cons, List.map_nil,
            List.mem_singleton]
          push_neg
          refine ⟨fun hc => hfresh1 kv (List.mem_cons_of_mem _ hkv) hc, ?_⟩
          intro hc
          exact hnd.1 (hc ▸ List.mem_map_of_mem Prod.fst hkv))
        (by
          intro kv hkv
          simp only [List.map_append, List.mem_append, List.map_cons, List.map_nil,
            List.mem_singleton]
          push_neg
          refine ⟨fun hc => hfresh2 kv (List.mem_cons_of_mem _ hkv) hc, ?_⟩
          intro hc
          exact hnd.1 (hc ▸ List.mem_map_of_mem Prod.fst hkv))
      simp only [List.map_cons, restore_go, hdecv, pyBytesTruthy, jsonLoadsBytes,
        if_pos]
      rw [dictInsert_append_of_not_mem st.messageHistory k v hk1,
        dictInsert_append_of_not_mem st.historyFiles k v hk2]
      rw [hstep]
      simp

/-- Sealing in `prepare_backup_data` never fails in this model, so the
`if encrypted_messages:` filter keeps every conversation: the snapshot history
is the pointwise sealed image of the local history. -/
theorem filterMap_seal_eq_map (symKey : Nat) (l : List (String × PyVal)) :
    l.filterMap (fun kv =>
        (encrypt_data_for_storage symKey kv.2).map (fun tok => (kv.1, tok)))
      = l.map (fun kv => (kv.1, fernetEncrypt symKey (storageSerialize kv.2))) := by
  induction l with
  | nil => rfl
  | cons kv rest ih =>
      simp only [encrypt_data_for_storage, Option.map_some'] at ih ⊢
      simp [List.filterMap_cons, ih]

/-- Prior local state for the C5 counterexample: one conversation with
`alice`. -/
def stC5 : ClientState :=
  { friends := ["bob"], groups := []
    messageHistory := [("alice", PyVal.list [PyVal.str "hi"])]
    lastSyncTime := 0, relationsFile := (["bob"], [])
    historyFiles := [("alice", PyVal.list [PyVal.str "hi"])], syncFile := none }

/-- Snapshot for the C5 counterexample: empty friends, groups and message
history. -/
def bC5 : Backup :=
  { friends := [], groups := [], message_history := [], timestamp := 5 }

/-- C5 counterexample: restoring a snapshot that carries no conversation at
all succeeds, yet the prior `alice` conversation is still present afterwards —
`restore_from_backup` overwrites per key and never deletes conversations
absent from the snapshot, so the claimed full replace does not happen. -/
theorem C5_restore_counterexample :
    (restore_from_backup 0 9 9 (some bC5) stC5).1 = true
    ∧ bC5.message_history.map Prod.fst = []
    ∧ dictFind (restore_from_backup 0 9 9 (some bC5) stC5).2.messageHistory "alice"
        = some (PyVal.list [PyVal.str "hi"]) :=
  ⟨rfl, rfl, rfl⟩

/-- C5 amended: a restore replaces the friends list, the groups list, and the
relations file with exactly the snapshot's contents; each conversation carried
by the snapshot (that unseals to truthy JSON bytes) is overwritten with
exactly the snapshot's content for that key; but a conversation whose key the
snapshot does not mention is retained unchanged, not removed; and pushing a
snapshot then restoring it on a fresh vault under the same symmetric key
reproduces exactly the friends, groups, and per-conversation history that was
pushed. -/
theorem C5_restore_semantics (symKey tFile tMem t : Nat) (b : Backup)
    (st S : ClientState) :
    (∀ flag st', restore_from_backup symKey tFile tMem (some b) st = (flag, st') →
        st'.friends = b.friends ∧ st'.groups = b.groups
        ∧ st'.relationsFile = (b.friends, b.groups))
    ∧ (∀ k st', k ∉ b.message_history.map Prod.fst →
        restore_from_backup symKey tFile tMem (some b) st = (true, st') →
        dictFind st'.messageHistory k = dictFind st.messageHistory k)
    ∧ (∀ k tok d msgs st', (b.message_history.map Prod.fst).Nodup →
        (k, tok) ∈ b.message_history →
        decrypt_data_from_storage symKey tok = some d →
        pyBytesTruthy d = true →
        jsonLoadsBytes d = some msgs →
        restore_from_backup symKey tFile tMem (some b) st = (true, st') →
        dictFind st'.messageHistory k = some msgs)
    ∧ ((S.messageHistory.map Prod.fst).Nodup →
        (∀ kv ∈ S.messageHistory, jsonContainerShape kv.2) →
        ∃ st', restore_from_backup symKey tFile tMem
              (some (prepare_backup_data symKey t S)) emptyClientState = (true, st')
          ∧ st'.friends = S.friends ∧ st'.groups = S.groups
          ∧ st'.messageHistory = S.messageHistory
          ∧ st'.historyFiles = S.messageHistory) := by
  refine ⟨?_, ?_, ?_, ?_⟩
  · intro flag st' h
    simp only [restore_from_backup] at h
    split at h
    · rename_i stP heq
      injection h with h1 h2
      subst h1
      subst h2
      have hf := restore_go_frame symKey b.message_history
        (save_relations { st with friends := b.friends, groups := b.groups })
      rw [heq] at hf
      simp only [exceptState] at hf
      exact ⟨hf.1, hf.2.1, hf.2.2.1⟩
    · rename_i st2 heq
      injection h with h1 h2
      subst h1
      subst h2
      have hf := restore_go_frame symKey b.message_history
        (save_relations { st with friends := b.friends, groups := b.groups })
      rw [heq] at hf
      simp only [exceptState] at hf
      exact ⟨hf.1, hf.2.1, hf.2.2.1⟩
  · intro k st' hk h
    simp only [restore_from_backup] at h
    split at h
    · rename_i stP heq
      injection h with h1 h2
      cases h1
    · rename_i st2 heq
      injection h with h1 h2
      subst h2
      have hu := restore_go_find_untouched symKey k b.message_history
        (save_relations { st with friends := b.friends, groups := b.groups }) hk
      rw [heq] at hu
      simp only [exceptState] at hu
      exact hu
  · intro k tok d msgs st' hnd hmem hdec ht hloads h
    simp only [restore_from_backup] at h
    split at h
    · rename_i stP heq
      injection h with h1 h2
      cases h1
    · rename_i st2 heq
      injection h with h1 h2
      subst h2
      exact restore_go_find_overwrite symKey b.message_history
        (save_relations { st with friends := b.friends, groups := b.groups })
        k tok d msgs st2 hnd hmem hdec ht hloads heq
  · intro hnd hshape
    have hrun := restore_go_roundtrip symKey S.messageHistory
      (save_relations { emptyClientState with friends := S.friends, groups := S.groups })
      hnd hshape
      (by intro kv hkv; simp [save_relations, emptyClientState])
      (by intro kv hkv; simp [save_relations, emptyClientState])
    refine ⟨{ friends := S.friends, groups := S.groups
              messageHistory := S.messageHistory, lastSyncTime := tMem
              relationsFile := (S.friends, S.groups)
              historyFiles := S.messageHistory, syncFile := some tFile },
      ?_, rfl, rfl, rfl, rfl⟩
    simp only [restore_from_backup, prepare_backup_data]
    rw [filterMap_seal_eq_map symKey S.messageHistory]
    rw [hrun]
    simp [save_relations, emptyClientState, save_sync_time]

/-- Snapshot for the C5 witness: friends `f`, groups `g`, one sealed
conversation `c`. -/
def bW : Backup :=
  { friends := ["f"], groups := ["g"]
    message_history := [("c", FernetTok.valid 0 (PyVal.bytesJson (PyVal.list [PyVal.str "m"])))]
    timestamp := 50 }

/-- The state the C5 witness restore produces from `stC5`: friends and groups
replaced, conversation `c` installed, conversation `alice` retained. -/
def stW : ClientState :=
  { friends := ["f"], groups := ["g"]
    messageHistory := [("alice", PyVal.list [PyVal.str "hi"]),
                       ("c", PyVal.list [PyVal.str "m"])]
    lastSyncTime := 61, relationsFile := (["f"], ["g"])
    historyFiles := [("alice", PyVal.list [PyVal.str "hi"]),
                     ("c", PyVal.list [PyVal.str "m"])]
    syncFile := some 60 }

/-- Source state for the C5 witness round trip. -/
def sw5 : ClientState :=
  { friends := ["x"], groups := []
    messageHistory := [("peer", PyVal.list [PyVal.str "mm"])]
    lastSyncTime := 3, relationsFile := ([], []), historyFiles := []
    syncFile := none }

/-- Witness for C5 amended: replacement of friends and groups, retention of
the `alice` conversation, exact overwrite of the `c` conversation, and the
fresh-vault round trip, all at concrete inputs. -/
theorem C5_restore_semantics_witness :
    (stW.friends = bW.friends ∧ stW.groups = bW.groups
      ∧ stW.relationsFile = (bW.friends, bW.groups))
    ∧ dictFind stW.messageHistory "alice" = dictFind stC5.messageHistory "alice"
    ∧ dictFind stW.messageHistory "c" = some (PyVal.list [PyVal.str "m"])
    ∧ (∃ st', restore_from_backup 0 60 61 (some (prepare_backup_data 0 50 sw5))
          emptyClientState = (true, st')
        ∧ st'.friends = sw5.friends ∧ st'.groups = sw5.groups
        ∧ st'.messageHistory = sw5.messageHistory
        ∧ st'.historyFiles = sw5.messageHistory) :=
  ⟨(C5_restore_semantics 0 60 61 50 bW stC5 sw5).1 true stW rfl,
    (C5_restore_semantics 0 60 61 50 bW stC5 sw5).2.1 "alice" stW (by decide) rfl,
    (C5_restore_semantics 0 60 61 50 bW stC5 sw5).2.2.1 "c"
      (FernetTok.valid 0 (PyVal.bytesJson (PyVal.list [PyVal.str "m"])))
      (PyVal.bytesJson (PyVal.list [PyVal.str "m"]))
      (PyVal.list [PyVal.str "m"]) stW (by decide)
      (List.mem_singleton.mpr rfl) rfl rfl rfl rfl,
    (C5_restore_semantics 0 60 61 50 bW stC5 sw5).2.2.2 (by decide)
      (by
        intro kv hkv
        have hkv2 : kv = ("peer", PyVal.list [PyVal.str "mm"]) :=
          List.mem_singleton.mp hkv
        rw [hkv2]
        exact Or.inl ⟨[PyVal.str "mm"], rfl⟩)⟩

/-- At most one `friends` row per ordered `(user_id, friend_id)` pair — the
`UNIQUE(user_id, friend_id)` schema constraint as a predicate on the store. -/
def UniqueEdges (db : ServerDB) : Prop :=
  db.friends.Pairwise (fun a b => ¬(a.user_id = b.user_id ∧ a.friend_id = b.friend_id))

/-- A status-only `UPDATE` keeps the ordered-pair uniqueness of the edge
list. -/
theorem edgePairwise_map_update (l : List FriendRow) (g : FriendRow → FriendRow)
    (hg : ∀ f, (g f).user_id = f.user_id ∧ (g f).friend_id = f.friend_id)
    (h : l.Pairwise (fun a b => ¬(a.user_id = b.user_id ∧ a.friend_id = b.friend_id))) :
    (l.map g).Pairwise (fun a b => ¬(a.user_id = b.user_id ∧ a.friend_id = b.friend_id)) := by
  rw [List.pairwise_map]
  refine h.imp ?_
  intro a b hab hcon
  apply hab
  constructor
  · have h1 := (hg a).1
    have h2 := (hg b).1
    rw [← h1, ← h2]
    exact hcon.1
  · have h1 := (hg a).2
    have h2 := (hg b).2
    rw [← h1, ← h2]
    exact hcon.2

/-- C9 part (1): `add_friend_request` preserves at-most-one-edge-per-ordered-
pair, on every branch. -/
theorem add_friend_request_unique (now u : Nat) (fu : String) (db : ServerDB)
    (h : UniqueEdges db) : UniqueEdges (add_friend_request now u fu db).2 := by
  unfold add_friend_request
  split
  · exact h
  · rename_i friend hfr
    split
    · exact h
    · split
      · rename_i existing hex
        split
        · exact h
        · exact h
        · exact edgePairwise_map_update db.friends _ (by intro f; split <;> exact ⟨rfl, rfl⟩) h
      · rename_i hnone
        have hall := List.find?_eq_none.mp hnone
        unfold UniqueEdges
        rw [List.pairwise_append]
        refine ⟨h, List.pairwise_singleton _ _, ?_⟩
        intro a ha b hb hcon
        simp only [List.mem_singleton] at hb
        subst hb
        have := hall a ha
        simp only [Bool.or_eq_true, Bool.and_eq_true, decide_eq_true_eq] at this
        push_neg at this
        exact this.1 hcon.1 hcon.2

/-- C9 part (2): `respond_to_friend_request` preserves at-most-one-edge-per-
ordered-pair whenever it returns (the conflicting mirror insert instead
aborts with no state change). -/
theorem respond_to_friend_request_unique (now rid u : Nat) (accept : Bool)
    (db : ServerDB) (out : ApiResult × ServerDB) (h : UniqueEdges db)
    (hres : respond_to_friend_request now rid u accept db = some out) :
    UniqueEdges out.2 := by
  unfold respond_to_friend_request at hres
  split at hres
  · cases hres
    exact h
  · rename_i request hreq
    have hmap : ∀ stt : FriendStatus,
        (db.friends.map (fun f =>
          if f.id = rid then { f with status := stt, updated_at := some now }
          else f)).Pairwise
          (fun a b => ¬(a.user_id = b.user_id ∧ a.friend_id = b.friend_id)) :=
      fun stt =>
        edgePairwise_map_update db.friends _ (by intro f; split <;> exact ⟨rfl, rfl⟩) h
    split at hres
    · split at hres
      · cases hres
      · rename_i hnoconflict
        cases hres
        unfold UniqueEdges
        rw [List.pairwise_append]
        refine ⟨hmap _, List.pairwise_singleton _ _, ?_⟩
        intro a ha b hb hcon
        simp only [List.mem_singleton] at hb
        subst hb
        obtain ⟨f, hf, rfl⟩ := List.mem_map.mp ha
        have hfprop : ∀ x ∈ db.friends,
            ¬(x.user_id = u && x.friend_id = request.user_id) = true := by
          intro x hx
          intro hx2
          rw [List.any_eq_true] at hnoconflict
          exact hnoconflict ⟨x, hx, hx2⟩
        have := hfprop f hf
        simp only [Bool.and_eq_true, decide_eq_true_eq] at this
        push_neg at this
        revert hcon
        split <;> intro hcon <;> exact this hcon.1 hcon.2
    · cases hres
      exact hmap _

/-- C9 part (3): requesting a user with an existing rejected edge between the
pair flips that edge back to pending and reports success. -/
theorem add_friend_request_repending (now u : Nat) (fu : String) (db : ServerDB)
    (fr : UserRow) (ex : FriendRow)
    (hfr : db.users.find? (fun x => x.username = fu) = some fr)
    (hne : u ≠ fr.id)
    (hfind : db.friends.find? (fun f =>
        (f.user_id = u && f.friend_id = fr.id) ||
        (f.user_id = fr.id && f.friend_id = u)) = some ex)
    (hex : ex.status = FriendStatus.rejected) :
    add_friend_request now u fu db
      = ({ success := true, message := "Friend request sent" },
         { db with friends := db.friends.map (fun f =>
             if f.id = ex.id then
               { f with status := FriendStatus.pending, updated_at := some now }
             else f) }) := by
  simp [add_friend_request, hfr, hne, hfind, hex]

/-- C9 part (5): while a pending edge is the recorded edge between the pair,
a new request — whichever of the two users sends it, since the lookup matches
both orientations — is refused with no state change. -/
theorem add_friend_request_pending_refused (now u : Nat) (fu : String)
    (db : ServerDB) (fr : UserRow) (ex : FriendRow)
    (hfr : db.users.find? (fun x => x.username = fu) = some fr)
    (hne : u ≠ fr.id)
    (hfind : db.friends.find? (fun f =>
        (f.user_id = u && f.friend_id = fr.id) ||
        (f.user_id = fr.id && f.friend_id = u)) = some ex)
    (hex : ex.status = FriendStatus.pending) :
    add_friend_request now u fu db
      = ({ success := false, message := "Friend request already pending" }, db) := by
  simp [add_friend_request, hfr, hne, hfind, hex]

/-- C9 part (4): accepting a pending request for which no mirror edge exists
updates that edge to accepted and inserts the mirror accepted edge
`(friend_id, user_id, accepted)` in the same transaction. -/
theorem respond_accept_mirror (now rid u : Nat) (db : ServerDB) (req : FriendRow)
    (hreq : db.friends.find? (fun f => f.id = rid && f.friend_id = u) = some req)
    (hpend : req.status = FriendStatus.pending)
    (hnomirror : db.friends.any (fun f =>
        f.user_id = u && f.friend_id = req.user_id) = false) :
    respond_to_friend_request now rid u true db
      = some ({ success := true, message := "Friend request accepted" },
          { db with
              friends := (db.friends.map (fun f =>
                  if f.id = rid then
                    { f with status := FriendStatus.accepted, updated_at := some now }
                  else f)) ++
                [{ id := db.nextFriendId, user_id := u, friend_id := req.user_id,
                   status := FriendStatus.accepted, created_at := now,
                   updated_at := none }]
              nextFriendId := db.nextFriendId + 1 }) := by
  have := hpend
  simp [respond_to_friend_request, hreq, hnomirror, FriendStatus.text]

/-- C9: the relay's friendship graph obeys the specified lifecycle: both
operations preserve at-most-one-edge-per-ordered-pair; re-requesting over a
rejected edge flips it back to pending; accepting a pending request (with no
mirror present, as in every lifecycle-reachable state) marks it accepted and
inserts the mirror accepted edge; and a duplicate request over a pending edge
is refused in either direction with no state change. -/
theorem C9_friend_lifecycle :
    (∀ now u fu db, UniqueEdges db → UniqueEdges (add_friend_request now u fu db).2)
    ∧ (∀ now rid u accept db out, UniqueEdges db →
        respond_to_friend_request now rid u accept db = some out →
        UniqueEdges out.2)
    ∧ (∀ now u fu db fr ex,
        db.users.find? (fun x => x.username = fu) = some fr →
        u ≠ fr.id →
        db.friends.find? (fun f =>
            (f.user_id = u && f.friend_id = fr.id) ||
            (f.user_id = fr.id && f.friend_id = u)) = some ex →
        ex.status = FriendStatus.rejected →
        add_friend_request now u fu db
          = ({ success := true, message := "Friend request sent" },
             { db with friends := db.friends.map (fun f =>
                 if f.id = ex.id then
                   { f with status := FriendStatus.pending, updated_at := some now }
                 else f) }))
    ∧ (∀ now rid u db req,
        db.friends.find? (fun f => f.id = rid && f.friend_id = u) = some req →
        req.status = FriendStatus.pending →
        db.friends.any (fun f => f.user_id = u && f.friend_id = req.user_id) = false →
        respond_to_friend_request now rid u true db
          = some ({ success := true, message := "Friend request accepted" },
              { db with
                  friends := (db.friends.map (fun f =>
                      if f.id = rid then
                        { f with status := FriendStatus.accepted, updated_at := some now }
                      else f)) ++
                    [{ id := db.nextFriendId, user_id := u, friend_id := req.user_id,
                       status := FriendStatus.accepted, created_at := now,
                       updated_at := none }]
                  nextFriendId := db.nextFriendId + 1 }))
    ∧ (∀ now u fu db fr ex,
        db.users.find? (fun x => x.username = fu) = some fr →
        u ≠ fr.id →
        db.friends.find? (fun f =>
            (f.user_id = u && f.friend_id = fr.id) ||
            (f.user_id = fr.id && f.friend_id = u)) = some ex →
        ex.status = FriendStatus.pending →
        add_friend_request now u fu db
          = ({ success := false, message := "Friend request already pending" }, db)) :=
  ⟨fun now u fu db h => add_friend_request_unique now u fu db h,
    fun now rid u accept db out h hres =>
      respond_to_friend_request_unique now rid u accept db out h hres,
    fun now u fu db fr ex hfr hne hfind hex =>
      add_friend_request_repending now u fu db fr ex hfr hne hfind hex,
    fun now rid u db req hreq hpend hnomirror =>
      respond_accept_mirror now rid u db req hreq hpend hnomirror,
    fun now u fu db fr ex hfr hne hfind hex =>
      add_friend_request_pending_refused now u fu db fr ex hfr hne hfind hex⟩

/-- Store with users `alice` (1) and `bob` (2) and a pending request from
`alice` to `bob`, for the C9 witness. -/
def dbP : ServerDB :=
  { users := [{ id := 1, username := "alice", email := "a@example.com",
                password_hash := "h", public_key := "pk", created_at := 0 },
              { id := 2, username := "bob", email := "b@example.com",
                password_hash := "h", public_key := "pk", created_at := 0 }]
    auth_tokens := []
    friends := [{ id := 1, user_id := 1, friend_id := 2,
                  status := FriendStatus.pending, created_at := 0, updated_at := none }]
    groups := [], group_members := [], messages := []
    nextUserId := 3, nextFriendId := 2, nextMsgId := 1 }

/-- The same store with the edge rejected, for the C9 witness. -/
def dbR : ServerDB :=
  { dbP with
    friends := [{ id := 1, user_id := 1, friend_id := 2,
                  status := FriendStatus.rejected, created_at := 0, updated_at := none }] }

/-- Witness for C9: uniqueness is preserved by a concrete request and a
concrete acceptance; the rejected edge of `dbR` is re-pended; accepting the
pending request of `dbP` creates the mirror edge; and both `alice` and `bob`
are refused a duplicate request over the pending edge. -/
theorem C9_friend_lifecycle_witness :
    UniqueEdges (add_friend_request 9 1 "bob" dbP).2
    ∧ UniqueEdges (({ success := true, message := "Friend request accepted" },
        { dbP with
            friends := (dbP.friends.map (fun f =>
                if f.id = 1 then
                  { f with status := FriendStatus.accepted, updated_at := some 9 }
                else f)) ++
              [{ id := 2, user_id := 2, friend_id := 1,
                 status := FriendStatus.accepted, created_at := 9,
                 updated_at := none }]
            nextFriendId := 3 }) : ApiResult × ServerDB).2
    ∧ add_friend_request 9 1 "bob" dbR
        = ({ success := true, message := "Friend request sent" },
           { dbR with friends := dbR.friends.map (fun f =>
               if f.id = 1 then
                 { f with status := FriendStatus.pending, updated_at := some 9 }
               else f) })
    ∧ respond_to_friend_request 9 1 2 true dbP
        = some ({ success := true, message := "Friend request accepted" },
            { dbP with
                friends := (dbP.friends.map (fun f =>
                    if f.id = 1 then
                      { f with status := FriendStatus.accepted, updated_at := some 9 }
                    else f)) ++
                  [{ id := 2, user_id := 2, friend_id := 1,
                     status := FriendStatus.accepted, created_at := 9,
                     updated_at := none }]
                nextFriendId := 3 })
    ∧ add_friend_request 9 1 "bob" dbP
        = ({ success := false, message := "Friend request already pending" }, dbP)
    ∧ add_friend_request 9 2 "alice" dbP
        = ({ success := false, message := "Friend request already pending" }, dbP) :=
  ⟨C9_friend_lifecycle.1 9 1 "bob" dbP (by simp [UniqueEdges, dbP]),
    C9_friend_lifecycle.2.1 9 1 2 true dbP _ (by simp [UniqueEdges, dbP]) rfl,
    C9_friend_lifecycle.2.2.1 9 1 "bob" dbR _ _ rfl (by decide) rfl rfl,
    C9_friend_lifecycle.2.2.2.1 9 1 2 dbP _ rfl rfl rfl,
    C9_friend_lifecycle.2.2.2.2 9 1 "bob" dbP _ _ rfl (by decide) rfl rfl,
    C9_friend_lifecycle.2.2.2.2 9 2 "alice" dbP _ _ rfl (by decide) rfl rfl⟩

/-- Two distinct members of a list occur in it in one of the two orders. -/
theorem mem_mem_sublist_or {α : Type} :
    ∀ {l : List α} {a b : α}, a ∈ l → b ∈ l → a ≠ b →
      ([a, b].Sublist l) ∨ ([b, a].Sublist l) := by
  intro l
  induction l with
  | nil => intro a b ha _ _; cases ha
  | cons x xs ih =>
      intro a b ha hb hne
      rcases List.mem_cons.mp ha with rfl | ha2
      · rcases List.mem_cons.mp hb with rfl | hb2
        · exact absurd rfl hne
        · exact Or.inl (List.Sublist.cons₂ _ (List.singleton_sublist.mpr hb2))
      · rcases List.mem_cons.mp hb with rfl | hb2
        · exact Or.inr (List.Sublist.cons₂ _ (List.singleton_sublist.mpr ha2))
        · rcases ih ha2 hb2 hne with h | h
          · exact Or.inl (List.Sublist.cons _ h)
          · exact Or.inr (List.Sublist.cons _ h)

/-- In a duplicate-free list, two elements cannot occur in both orders. -/
theorem sublist_pair_antisymm {α : Type} :
    ∀ {l : List α} {a b : α}, l.Nodup → [a, b].Sublist l → [b, a].Sublist l → a = b := by
  intro l
  induction l with
  | nil => intro a b _ h1 _; exact absurd h1 (by simp)
  | cons x xs ih =>
      intro a b hnd h1 h2
      rw [List.nodup_cons] at hnd
      cases h1 with
      | cons _ h1t =>
          cases h2 with
          | cons _ h2t => exact ih hnd.2 h1t h2t
          | cons₂ h2t => exact absurd (h1t.subset (by simp)) hnd.1
      | cons₂ h1t =>
          cases h2 with
          | cons _ h2t => exact absurd (h2t.subset (by simp)) hnd.1
          | cons₂ h2t => rfl

/-- In a scan whose key strictly increases, two members with increasing keys
occur in key order. -/
theorem pair_sublist_of_pairwise_lt {α : Type} (f : α → Nat) {l : List α}
    (h : l.Pairwise (fun a b => f a < f b)) {a b : α} (ha : a ∈ l) (hb : b ∈ l)
    (hab : f a < f b) : [a, b].Sublist l := by
  have hne : a ≠ b := by
    intro he
    rw [he] at hab
    exact Nat.lt_irrefl _ hab
  rcases mem_mem_sublist_or ha hb hne with hs | hs
  · exact hs
  · exact absurd (List.pairwise_iff_forall_sublist.mp h hs) (Nat.lt_asymm hab)

/-- The claimed delivery order: ascending timestamp, ties broken by insertion
(`id`) order. -/
def msgOrder (a b : MsgRow) : Prop :=
  a.timestamp < b.timestamp ∨ (a.timestamp = b.timestamp ∧ a.id < b.id)

/-- Stability of the `ORDER BY timestamp ASC` model: sorting an id-increasing
scan by timestamp alone produces rows in ascending timestamp order with ties
in id order. -/
theorem mergeSort_ts_pairwise (l : List MsgRow)
    (h : l.Pairwise (fun a b => a.id < b.id)) :
    (l.mergeSort (fun a b => decide (a.timestamp ≤ b.timestamp))).Pairwise msgOrder := by
  have trans : ∀ (a b c : MsgRow),
      decide (a.timestamp ≤ b.timestamp) = true →
      decide (b.timestamp ≤ c.timestamp) = true →
      decide (a.timestamp ≤ c.timestamp) = true := by
    intro a b c hab hbc
    simp only [decide_eq_true_eq] at hab hbc ⊢
    omega
  have total : ∀ (a b : MsgRow),
      (decide (a.timestamp ≤ b.timestamp) || decide (b.timestamp ≤ a.timestamp)) = true := by
    intro a b
    simp only [Bool.or_eq_true, decide_eq_true_eq]
    exact Nat.le_total _ _
  have hsorted := List.sorted_mergeSort trans total l
  have hperm := List.mergeSort_perm l (fun a b => decide (a.timestamp ≤ b.timestamp))
  have hidnodup : ((l.mergeSort (fun a b => decide (a.timestamp ≤ b.timestamp))).map
      (fun m => m.id)).Nodup := by
    have h1 : (l.map (fun m => m.id)).Pairwise (· < ·) := by
      rw [List.pairwise_map]
      exact h
    have h2 : (l.map (fun m => m.id)).Nodup := h1.imp Nat.ne_of_lt
    exact ((hperm.map (fun m => m.id)).nodup_iff).mpr h2
  have hnodup := List.Nodup.of_map _ hidnodup
  rw [List.pairwise_iff_forall_sublist]
  intro a b hsub
  have hts : a.timestamp ≤ b.timestamp := by
    have := List.pairwise_iff_forall_sublist.mp hsorted hsub
    simpa using this
  have hne : a ≠ b := List.pairwise_iff_forall_sublist.mp hnodup hsub
  have hidne : a.id ≠ b.id := by
    have hsub2 : [a.id, b.id].Sublist
        ((l.mergeSort (fun a b => decide (a.timestamp ≤ b.timestamp))).map
          (fun m => m.id)) := by
      have := hsub.map (fun m => m.id)
      simpa using this
    exact List.pairwise_iff_forall_sublist.mp hidnodup hsub2
  rcases Nat.lt_or_ge a.timestamp b.timestamp with hlt | hge
  · exact Or.inl hlt
  · have hts_eq : a.timestamp = b.timestamp := Nat.le_antisymm hts hge
    rcases Nat.lt_or_ge a.id b.id with hid | hid2
    · exact Or.inr ⟨hts_eq, hid⟩
    · exfalso
      have hidlt : b.id < a.id := Nat.lt_of_le_of_ne hid2 (Ne.symm hidne)
      have hamem : a ∈ l := hperm.subset (hsub.subset (by simp))
      have hbmem : b ∈ l := hperm.subset (hsub.subset (by simp))
      have hsubl : [b, a].Sublist l :=
        pair_sublist_of_pairwise_lt (fun m => m.id) h hbmem hamem hidlt
      have hleba : decide (b.timestamp ≤ a.timestamp) = true := by
        simp only [decide_eq_true_eq]
        omega
      have hsubout := List.pair_sublist_mergeSort trans total hleba hsubl
      exact hne (sublist_pair_antisymm hnodup hsub hsubout)

/-- C3: for every user and since-timestamp, the receive operation — direct and
group path alike — returns exactly the stored rows addressed to that user with
timestamp strictly greater than since (a permutation of that filter of the
store), ordered ascending by timestamp with ties broken by insertion (`id`)
order.  The hypotheses state the store's referential integrity (insertion
order carries increasing ids; every message's sender exists; every group
message's group exists), under which the SQL joins drop nothing. -/
theorem C3_receive_semantics (db : ServerDB) (user_id since : Nat)
    (hids : db.messages.Pairwise (fun a b => a.id < b.id))
    (hsender : ∀ m ∈ db.messages, db.users.any (fun u => u.id = m.sender_id) = true)
    (hgroups : ∀ m ∈ db.messages, m.is_group = true →
      db.groups.any (fun g => g.id = m.recipient_id) = true) :
    ((get_messages user_id since db).1.Perm (db.messages.filter (fun m =>
        m.recipient_id = user_id && decide (since < m.timestamp) && !m.is_group)))
    ∧ (get_messages user_id since db).1.Pairwise msgOrder
    ∧ ((get_group_messages user_id since db).Perm (db.messages.filter (fun m =>
        m.is_group && decide (since < m.timestamp) &&
        db.group_members.any (fun gm =>
          gm.group_id = m.recipient_id && gm.user_id = user_id))))
    ∧ (get_group_messages user_id since db).Pairwise msgOrder := by
  have hfeqD : db.messages.filter (fun m =>
        m.recipient_id = user_id && decide (since < m.timestamp) &&
        !m.is_group && db.users.any (fun u => u.id = m.sender_id))
      = db.messages.filter (fun m =>
        m.recipient_id = user_id && decide (since < m.timestamp) && !m.is_group) := by
    apply List.filter_congr
    intro m hm
    rw [hsender m hm]
    simp
  have hfeqG : db.messages.filter (fun m =>
        m.is_group && decide (since < m.timestamp) &&
        db.users.any (fun u => u.id = m.sender_id) &&
        db.groups.any (fun g => g.id = m.recipient_id) &&
        db.group_members.any (fun gm =>
          gm.group_id = m.recipient_id && gm.user_id = user_id))
      = db.messages.filter (fun m =>
        m.is_group && decide (since < m.timestamp) &&
        db.group_members.any (fun gm =>
          gm.group_id = m.recipient_id && gm.user_id = user_id)) := by
    apply List.filter_congr
    intro m hm
    cases hig : m.is_group with
    | false => simp
    | true => rw [hsender m hm, hgroups m hm hig]; simp
  refine ⟨?_, ?_, ?_, ?_⟩
  · exact (List.mergeSort_perm _ _).trans (hfeqD ▸ List.Perm.refl _)
  · exact mergeSort_ts_pairwise _ (List.Pairwise.filter _ hids)
  · exact (List.mergeSort_perm _ _).trans (hfeqG ▸ List.Perm.refl _)
  · exact mergeSort_ts_pairwise _ (List.Pairwise.filter _ hids)

/-- Store for the C3 witness: direct messages to user 1 at timestamps 10, 20,
30 and one group message at 20 in a group user 1 belongs to. -/
def dbC3 : ServerDB :=
  { users := [{ id := 1, username := "alice", email := "a@example.com",
                password_hash := "h", public_key := "pk", created_at := 0 },
              { id := 2, username := "bob", email := "b@example.com",
                password_hash := "h", public_key := "pk", created_at := 0 }]
    auth_tokens := [], friends := []
    groups := [{ id := 7, name := "g", created_by := 1, created_at := 0 }]
    group_members := [{ group_id := 7, user_id := 1, joined_at := 0 }]
    messages :=
      [{ id := 1, sender_id := 2, recipient_id := 1, encrypted_key := "k1",
         encrypted_content := "c1", is_group := false, timestamp := 10,
         delivered := false },
       { id := 2, sender_id := 2, recipient_id := 1, encrypted_key := "k2",
         encrypted_content := "c2", is_group := false, timestamp := 20,
         delivered := false },
       { id := 3, sender_id := 2, recipient_id := 1, encrypted_key := "k3",
         encrypted_content := "c3", is_group := false, timestamp := 30,
         delivered := false },
       { id := 4, sender_id := 2, recipient_id := 7, encrypted_key := "k4",
         encrypted_content := "c4", is_group := true, timestamp := 20,
         delivered := false }]
    nextUserId := 3, nextFriendId := 1, nextMsgId := 5 }

unseal List.merge List.mergeSort in
/-- Witness for C3: at `since = 15` against stored direct timestamps
[10, 20, 30], the receive returns exactly the rows at [20, 30] in that order,
and both paths satisfy the filter-permutation and ordering contract. -/
theorem C3_receive_semantics_witness :
    ((get_messages 1 15 dbC3).1.Perm (dbC3.messages.filter (fun m =>
        m.recipient_id = 1 && decide (15 < m.timestamp) && !m.is_group)))
    ∧ (get_messages 1 15 dbC3).1.Pairwise msgOrder
    ∧ ((get_group_messages 1 15 dbC3).Perm (dbC3.messages.filter (fun m =>
        m.is_group && decide (15 < m.timestamp) &&
        dbC3.group_members.any (fun gm =>
          gm.group_id = m.recipient_id && gm.user_id = 1))))
    ∧ (get_group_messages 1 15 dbC3).Pairwise msgOrder
    ∧ (get_messages 1 15 dbC3).1.map (fun m => m.timestamp) = [20, 30] :=
  ⟨(C3_receive_semantics dbC3 1 15 (by decide) (by decide) (by decide)).1,
    (C3_receive_semantics dbC3 1 15 (by decide) (by decide) (by decide)).2.1,
    (C3_receive_semantics dbC3 1 15 (by decide) (by decide) (by decide)).2.2.1,
    (C3_receive_semantics dbC3 1 15 (by decide) (by decide) (by decide)).2.2.2,
    by decide⟩

end SecureConnect
